import Mathlib

/-!
Verification of the directive lifecycle manager (`src/directive.ts`).

The development shallowly embeds the two source components:

* `extractAttributesFromSelector` (directive.ts:131-139): the selector
  attribute extractor, a left-to-right implementation of the global regex
  scan with pattern `\[\s*([a-zA-Z_:][-a-zA-Z0-9_:.]*)` feeding a
  JS `Set` (insertion-ordered, duplicate-free) that is converted to an array.
* `DirectiveManager` (directive.ts:16-113) and `registerDirective`
  (directive.ts:115-125): per-node instance storage keyed by a
  manager-private symbol, the attach/detach/update operations, the
  mutation-observer reducer, and the subscription machinery.

The host tree's selector-match predicate is an external black box
(`Element.matches`); it is modelled as a boolean function of a node's
current attribute list, which also covers class- and id-based selector
parts since `class` and `id` are themselves attributes.

The file is organised as definitions first, then theorems.
-/

namespace Directive

/-! ## Selector attribute extractor (directive.ts:131-139) -/

/-- JS `\s` whitespace class, used by the `\s*` part of the attribute
pattern.  ASCII whitespace plus the Unicode space characters matched by
JavaScript regexes. -/
def isSelSpace (c : Char) : Bool :=
  c = ' ' || c = '\t' || c = '\n' || c = '\r' ||
  c.val = 11 || c.val = 12 || c.val = 160 || c.val = 5760 ||
  (8192 ≤ c.val && c.val ≤ 8202) || c.val = 8232 || c.val = 8233 ||
  c.val = 8239 || c.val = 8287 || c.val = 12288 || c.val = 65279

/-- First character class `[a-zA-Z_:]` of the attribute-name capture group. -/
def isAttrStart (c : Char) : Bool :=
  c.isAlpha || c = '_' || c = ':'

/-- Continuation character class `[-a-zA-Z0-9_:.]` of the attribute-name
capture group. -/
def isAttrChar (c : Char) : Bool :=
  c.isAlphanum || c = '-' || c = '_' || c = ':' || c = '.'

/-- Model of `attrs.add(match[1])` on a JS `Set`: keep first-occurrence
order, drop duplicates (directive.ts:136). -/
def addAttr (acc : List String) (n : String) : List String :=
  if n ∈ acc then acc else acc ++ [n]

mutual

/-- Scanning state of the regex engine: looking for the next `[` that can
start a match of `\[\s*([a-zA-Z_:][-a-zA-Z0-9_:.]*)` (directive.ts:132,135). -/
def extractLoop : List Char → List String → List String
  | [], acc => acc
  | c :: cs, acc =>
    if c = '[' then extractBracket cs acc else extractLoop cs acc

/-- State after a literal `[`: `\s*` skips whitespace; a first-class
character starts the capture group; another `[` restarts the bracket
attempt (it is the next possible match start); anything else fails this
attempt and scanning resumes. -/
def extractBracket : List Char → List String → List String
  | [], acc => acc
  | c :: cs, acc =>
    if isSelSpace c then extractBracket cs acc
    else if isAttrStart c then extractName cs (String.mk [c]) acc
    else if c = '[' then extractBracket cs acc
    else extractLoop cs acc

/-- State inside the capture group: extend the name while the
continuation class matches; at the first other character the match is
complete, the name is added to the set, and scanning resumes at that
character (`lastIndex` is the end of the match). -/
def extractName : List Char → String → List String → List String
  | [], nm, acc => addAttr acc nm
  | c :: cs, nm, acc =>
    if isAttrChar c then extractName cs (nm.push c) acc
    else if c = '[' then extractBracket cs (addAttr acc nm)
    else extractLoop cs (addAttr acc nm)

end

/-- Source `extractAttributesFromSelector` (directive.ts:131-139): run the
global regex scan over the selector and return the set contents as an
array in insertion order. -/
def extractAttributesFromSelector (selector : String) : List String :=
  extractLoop selector.data []

/-! ## Data model: nodes, attributes, per-node instance slots

A host tree node is identified by a `NodeId`.  Its mutable attribute list
is a `List (String × String)` (DOM attributes; `class` and `id` are
ordinary attributes, so class-based selector parts are covered).  The
manager stores directive instances in per-node slots keyed by the
manager's private symbol (`element[this.symbol]`, directive.ts:74-84);
the slots of all nodes and all managers form one shared `Store`, which
also records every constructor / `onChange` / `onDetach` invocation in an
event log so that invocation counts and orders can be stated. -/

abbrev NodeId := Nat

abbrev Attrs := List (String × String)

/-- A mutation descriptor (`MutationRecord`): either a childList record
carrying the added and removed element nodes, or an attribute record
carrying the target element and the changed attribute's name.
Non-element added/removed nodes are filtered out by the observer callback
(directive.ts:28,33), so the lists carry element ids only. -/
inductive MRec where
  | childList (added removed : List NodeId)
  | attributes (target : NodeId) (attrName : String)
deriving DecidableEq, Repr

/-- One observable interaction with user code: a directive-constructor
invocation (`new this.directive(element)`, directive.ts:76), an
`onChange` invocation (directive.ts:88, carrying the mutation record
passed through), or an `onDetach` invocation (directive.ts:82).
`sym` is the owning manager's storage key, `inst` the instance identity. -/
inductive Event where
  | construct (sym : Nat) (node : NodeId) (inst : Nat)
  | change (sym : Nat) (node : NodeId) (inst : Nat) (rec : MRec)
  | detach (sym : Nat) (node : NodeId) (inst : Nat)
deriving DecidableEq, Repr

/-- The shared instance storage: `slots n k` is the directive instance
stored on node `n` under storage key `k` (`element[symbol]`), `next` the
next fresh instance identity (each `new this.directive(el)` yields a new
object), `events` the chronological log of user-code invocations. -/
structure Store where
  slots : NodeId → Nat → Option Nat
  next : Nat
  events : List Event

/-- A `DirectiveManager` (directive.ts:16-22): its minted symbol, the
selector's matching predicate over a node's current attributes
(`el.matches(this.selector)`, a host-tree black box), and the attribute
watch-list `attrsToObserve = extractAttributesFromSelector(selector)`. -/
structure Mgr where
  sym : Nat
  matchesSel : Attrs → Bool
  watch : List String

/-- Reading `element[this.symbol]`. -/
def getSlot (s : Store) (n : NodeId) (k : Nat) : Option Nat :=
  s.slots n k

/-- Source `getDir` (directive.ts:60-62): look up the manager's stored
instance on a node. -/
def getDir (m : Mgr) (n : NodeId) (s : Store) : Option Nat :=
  getSlot s n m.sym

/-- Source `#attach` (directive.ts:74-78): if the slot is occupied return
`false`; otherwise construct a new instance, store it under the symbol,
and return `true`. -/
def attachP (m : Mgr) (n : NodeId) (s : Store) : Store × Bool :=
  match s.slots n m.sym with
  | some _ => (s, false)
  | none =>
    ({ slots := fun x k => if x = n ∧ k = m.sym then some s.next else s.slots x k,
       next := s.next + 1,
       events := s.events ++ [.construct m.sym n s.next] }, true)

/-- Source `#detach` (directive.ts:80-84): if the slot is empty return;
otherwise invoke `onDetach` on the stored instance and delete the slot. -/
def detachP (m : Mgr) (n : NodeId) (s : Store) : Store :=
  match s.slots n m.sym with
  | none => s
  | some i =>
    { slots := fun x k => if x = n ∧ k = m.sym then none else s.slots x k,
      next := s.next,
      events := s.events ++ [.detach m.sym n i] }

/-- Source `update` (directive.ts:86-90): try `#attach`; when it reports
the slot already occupied, invoke `onChange(el, mutation)` on the stored
instance. -/
def update (m : Mgr) (n : NodeId) (rec : MRec) (s : Store) : Store :=
  let r := attachP m n s
  if r.2 then r.1
  else
    match getSlot r.1 n m.sym with
    | some i => { r.1 with events := r.1.events ++ [.change m.sym n i rec] }
    | none => r.1

/-- A sequence of `#attach` calls, one per node, in order (the loop bodies
of directive.ts:65-66). -/
def attachList (m : Mgr) (l : List NodeId) (s : Store) : Store :=
  l.foldl (fun s n => (attachP m n s).1) s

/-- A sequence of `#detach` calls, one per node, in order (the loop bodies
of directive.ts:57,70-71). -/
def detachList (m : Mgr) (l : List NodeId) (s : Store) : Store :=
  l.foldl (fun s n => detachP m n s) s

/-! ## Host tree

An element tree: node id, current attribute list, child subtrees, in
document order.  The host capabilities the manager calls into —
`el.matches(selector)`, `root.querySelectorAll(selector)`, attribute
updates, child insertion/removal — are modelled below. -/

inductive NTree where
  | node (id : NodeId) (attrs : Attrs) (kids : List NTree)

def NTree.rootId : NTree → NodeId
  | .node i _ _ => i

def NTree.rootAttrs : NTree → Attrs
  | .node _ a _ => a

def NTree.children : NTree → List NTree
  | .node _ _ ks => ks

mutual

/-- All nodes of a subtree (self included) whose current attributes match
the selector, in document (preorder) order. -/
def selMatching (m : Mgr) : NTree → List NodeId
  | .node i a ks => (if m.matchesSel a then [i] else []) ++ selMatchingL m ks

def selMatchingL (m : Mgr) : List NTree → List NodeId
  | [] => []
  | t :: ts => selMatching m t ++ selMatchingL m ts

end

/-- Host `root.querySelectorAll(this.selector)`: the matching proper
descendants of `root`, in document order (the root itself is never part
of a `querySelectorAll` result). -/
def querySelectorAll (m : Mgr) (t : NTree) : List NodeId :=
  selMatchingL m t.children

mutual

/-- Find the subtree rooted at the node with the given id. -/
def lookupTree : NTree → NodeId → Option NTree
  | .node i a ks, n =>
    if i = n then some (.node i a ks) else lookupForest ks n

def lookupForest : List NTree → NodeId → Option NTree
  | [], _ => none
  | t :: ts, n =>
    match lookupTree t n with
    | some r => some r
    | none => lookupForest ts n

end

/-- The current attribute list of the node with the given id, if it is in
the tree. -/
def lookupAttrs (t : NTree) (n : NodeId) : Option Attrs :=
  (lookupTree t n).map NTree.rootAttrs

mutual

/-- Host `el.setAttribute(k, v)` on the node with the given id: replace
the value if the attribute is present, append it otherwise. -/
def setAttrTree (n : NodeId) (k v : String) : NTree → NTree
  | .node i a ks =>
    .node i
      (if i = n then
        (if (a.lookup k).isSome then a.map (fun p => if p.1 = k then (k, v) else p)
         else a ++ [(k, v)])
       else a)
      (setAttrForest n k v ks)

def setAttrForest (n : NodeId) (k v : String) : List NTree → List NTree
  | [] => []
  | t :: ts => setAttrTree n k v t :: setAttrForest n k v ts

end

mutual

/-- Host `removeChild`: delete every child subtree rooted at the given
id, anywhere in the tree. -/
def removeSubTree (n : NodeId) : NTree → NTree
  | .node i a ks => .node i a (removeSubForest n ks)

def removeSubForest (n : NodeId) : List NTree → List NTree
  | [] => []
  | t :: ts =>
    if t.rootId = n then removeSubForest n ts
    else removeSubTree n t :: removeSubForest n ts

end

mutual

/-- Host `appendChild(t)` under the node with the given id. -/
def insertUnderTree (p : NodeId) (t : NTree) : NTree → NTree
  | .node i a ks =>
    .node i a (insertUnderForest p t ks ++ (if i = p then [t] else []))

def insertUnderForest (p : NodeId) (t : NTree) : List NTree → List NTree
  | [] => []
  | u :: us => insertUnderTree p t u :: insertUnderForest p t us

end

/-! ## Tree-level manager operations (directive.ts:55-72) -/

/-- Source `attachTo` (directive.ts:64-67): if the root is an `Element`
and matches the selector, `#attach` it; then `#attach` every node
returned by `root.querySelectorAll(this.selector)`, in order.  `isElem`
is the `root instanceof Element` test — `false` for documents and
fragments. -/
def attachTo (m : Mgr) (isElem : Bool) (t : NTree) (s : Store) : Store :=
  attachList m
    ((if isElem ∧ m.matchesSel t.rootAttrs then [t.rootId] else []) ++ querySelectorAll m t) s

/-- Source `detachFrom` (directive.ts:69-72): `#detach` every node
returned by `root.querySelectorAll(this.selector)`, in order, then
`#detach` the root itself if it matches. -/
def detachFrom (m : Mgr) (t : NTree) (s : Store) : Store :=
  detachList m
    (querySelectorAll m t ++ (if m.matchesSel t.rootAttrs then [t.rootId] else [])) s

/-- The store effect of source `disconnect` (directive.ts:55-58):
`#detach` every node of `root.querySelectorAll(this.selector)` — note the
root itself is not part of that query result and is never detached here. -/
def disconnectStore (m : Mgr) (t : NTree) (s : Store) : Store :=
  detachList m (querySelectorAll m t) s

/-! ## Mutation observation (directive.ts:24-53) and world evolution

`World` is the observed document plus the observation machinery: `limbo`
holds subtrees removed since the last delivery (the DOM keeps observing
removed subtrees through transient registered observers until the queued
records are delivered, and the removed node objects stay alive for the
queued `removedNodes` references), `pending` is the observer's record
queue, `subscribed` reflects `observe`/`disconnect`. -/

structure World where
  doc : NTree
  limbo : List NTree
  pending : List MRec
  subscribed : Bool

/-- Resolve a node reference carried by a mutation record against the
current document, falling back to the removed-but-still-referenced
subtrees. -/
def resolve (w : World) (n : NodeId) : Option NTree :=
  match lookupTree w.doc n with
  | some t => some t
  | none => lookupForest w.limbo n

/-- The body of the observer callback for one `MutationRecord`
(directive.ts:25-43): childList records run `attachTo` on each added
element and `detachFrom` on each removed element; attribute records run
`update` when the target currently matches the selector and `#detach`
otherwise. -/
def processRec (m : Mgr) (w : World) (s : Store) : MRec → Store
  | .childList added removed =>
    let s₁ := added.foldl (fun s n =>
      match resolve w n with
      | some t => attachTo m true t s
      | none => s) s
    removed.foldl (fun s n =>
      match resolve w n with
      | some t => detachFrom m t s
      | none => s) s₁
  | .attributes n k =>
    match resolve w n with
    | some t =>
      if m.matchesSel t.rootAttrs then update m n (.attributes n k) s
      else detachP m n s
    | none => s

/-- The observer callback over a whole batch, in delivery order
(directive.ts:24-44). -/
def processRecs (m : Mgr) (w : World) (recs : List MRec) (s : Store) : Store :=
  recs.foldl (processRec m w) s

/-- The `attributeFilter` set up by `observe` (directive.ts:46-53): when
`attrsToObserve` is non-empty only those attribute names are observed,
otherwise every attribute is. -/
def observesAttr (m : Mgr) (k : String) : Bool :=
  m.watch.isEmpty || m.watch.contains k

/-- One externally-triggered evolution step: a host-script attribute
write, a child removal or insertion, a delivery of the queued records to
the observer callback, or a `disconnect` call. -/
inductive Step where
  | setA (n : NodeId) (k v : String)
  | removeC (n : NodeId)
  | appendC (parent : NodeId) (t : NTree)
  | deliver
  | stop

/-- Host-tree small-step semantics as seen by one manager.  Records are
queued exactly when the subscription is live, the mutated node is
observed (in the document, or removed since the last delivery), and — for
attribute writes — the attribute name passes the `attributeFilter`.
`stop` models `disconnect(root)` with the registration root
(directive.ts:55-58): the observer's queue is dropped, no further records
are queued, and the store-side teardown loop runs. -/
def runStep (m : Mgr) : World × Store → Step → World × Store
  | (w, s), .setA n k v =>
    ({ doc := setAttrTree n k v w.doc,
       limbo := setAttrForest n k v w.limbo,
       pending := w.pending ++
         (if w.subscribed ∧ ((lookupTree w.doc n).isSome ∨ (lookupForest w.limbo n).isSome)
             ∧ observesAttr m k then [.attributes n k] else []),
       subscribed := w.subscribed }, s)
  | (w, s), .removeC n =>
    if n = w.doc.rootId then (w, s)
    else
      match lookupTree w.doc n with
      | none => (w, s)
      | some t =>
        ({ doc := removeSubTree n w.doc,
           limbo := w.limbo ++ [t],
           pending := w.pending ++ (if w.subscribed then [.childList [] [n]] else []),
           subscribed := w.subscribed }, s)
  | (w, s), .appendC p t =>
    if (lookupTree w.doc p).isSome then
      ({ doc := insertUnderTree p t w.doc,
         limbo := w.limbo,
         pending := w.pending ++ (if w.subscribed then [.childList [t.rootId] []] else []),
         subscribed := w.subscribed }, s)
    else (w, s)
  | (w, s), .deliver =>
    ({ doc := w.doc, limbo := [], pending := [], subscribed := w.subscribed },
     processRecs m w w.pending s)
  | (w, s), .stop =>
    ({ doc := w.doc, limbo := w.limbo, pending := [], subscribed := false },
     disconnectStore m w.doc s)

def runSteps (m : Mgr) (steps : List Step) (ws : World × Store) : World × Store :=
  steps.foldl (runStep m) ws

/-- The `DirectiveManager` constructor (directive.ts:19-22): mint a fresh
symbol (modelled by a global symbol counter — `Symbol()` never returns
the same token twice) and extract the attribute watch-list from the
selector string.  `matchesSel` is the host predicate `el.matches(selector)`
for this selector. -/
def newManager (matchesSel : Attrs → Bool) (selector : String) (c : Nat) : Mgr × Nat :=
  ({ sym := c, matchesSel := matchesSel, watch := extractAttributesFromSelector selector }, c + 1)

/-- The result of `registerDirective` (directive.ts:115-125). -/
structure RegResult where
  mgr : Mgr
  store : Store
  nextSym : Nat
  world : World

/-- Source `registerDirective` (directive.ts:115-125): construct a
manager, run the initial `attachTo` pass over the root, then
`observe(root)`. -/
def registerDirective (matchesSel : Attrs → Bool) (selector : String)
    (isElem : Bool) (t : NTree) (c : Nat) (s : Store) : RegResult :=
  let p := newManager matchesSel selector c
  { mgr := p.1,
    store := attachTo p.1 isElem t s,
    nextSym := p.2,
    world := { doc := t, limbo := [], pending := [], subscribed := true } }

/-! ## Exception-aware semantics (for the error-handling claim)

The source wraps no user callback in try/catch.  In JavaScript a callback
that throws unwinds through `#detach` / `update` and through the `for`
loops of the observer callback: statements after the call site (in
particular `delete el[this.symbol]`, directive.ts:83) do not run, and the
remaining records of the batch are not processed.  `fD n` / `fC n` say
whether node `n`'s `onDetach` / `onChange` throws; the `Bool` result is
"an exception is unwinding". -/

def detachPE (m : Mgr) (fD : NodeId → Bool) (n : NodeId) (s : Store) : Store × Bool :=
  match s.slots n m.sym with
  | none => (s, false)
  | some i =>
    if fD n then
      ({ s with events := s.events ++ [.detach m.sym n i] }, true)
    else
      ({ slots := fun x k => if x = n ∧ k = m.sym then none else s.slots x k,
         next := s.next,
         events := s.events ++ [.detach m.sym n i] }, false)

def updateE (m : Mgr) (fC : NodeId → Bool) (n : NodeId) (rec : MRec) (s : Store) : Store × Bool :=
  let r := attachP m n s
  if r.2 then (r.1, false)
  else
    match getSlot r.1 n m.sym with
    | some i => ({ r.1 with events := r.1.events ++ [.change m.sym n i rec] }, fC n)
    | none => (r.1, false)

def detachListE (m : Mgr) (fD : NodeId → Bool) : List NodeId → Store → Store × Bool
  | [], s => (s, false)
  | n :: ns, s =>
    let r := detachPE m fD n s
    if r.2 then r else detachListE m fD ns r.1

def detachFromE (m : Mgr) (fD : NodeId → Bool) (t : NTree) (s : Store) : Store × Bool :=
  detachListE m fD
    (querySelectorAll m t ++ (if m.matchesSel t.rootAttrs then [t.rootId] else [])) s

def detachRemovedE (m : Mgr) (fD : NodeId → Bool) (w : World) :
    List NodeId → Store → Store × Bool
  | [], s => (s, false)
  | n :: ns, s =>
    match resolve w n with
    | none => detachRemovedE m fD w ns s
    | some t =>
      let r := detachFromE m fD t s
      if r.2 then r else detachRemovedE m fD w ns r.1

def processRecE (m : Mgr) (fD fC : NodeId → Bool) (w : World) (s : Store) :
    MRec → Store × Bool
  | .childList added removed =>
    let s₁ := added.foldl (fun s n =>
      match resolve w n with
      | some t => attachTo m true t s
      | none => s) s
    detachRemovedE m fD w removed s₁
  | .attributes n k =>
    match resolve w n with
    | some t =>
      if m.matchesSel t.rootAttrs then updateE m fC n (.attributes n k) s
      else detachPE m fD n s
    | none => (s, false)

def processRecsE (m : Mgr) (fD fC : NodeId → Bool) (w : World) :
    List MRec → Store → Store × Bool
  | [], s => (s, false)
  | r :: rs, s =>
    let p := processRecE m fD fC w s r
    if p.2 then p else processRecsE m fD fC w rs p.1

/-! ## Concrete instances used by the claim witnesses and counterexamples -/

/-- The store with no instances, before any registration. -/
def emptyStore : Store :=
  { slots := fun _ _ => none, next := 0, events := [] }

/-- The §3 lifecycle invariant claimed for every reachable manager state:
every instance stored under the manager's key sits on a node that is
currently in the observed document and currently matches the selector. -/
def storeInv (m : Mgr) (w : World) (s : Store) : Prop :=
  ∀ n i, getSlot s n m.sym = some i →
    ∃ a, lookupAttrs w.doc n = some a ∧ m.matchesSel a = true

/-- Host matching predicate for the selector `".card[data-x]"`: the
`class` attribute equals `"card"` and the `data-x` attribute is present.
Matching depends on `class`, but the extracted watch-list for this
selector is just `["data-x"]`. -/
def cardMatches (a : Attrs) : Bool :=
  (a.lookup "class" == some "card") && (a.lookup "data-x").isSome

/-- Registration of `".card[data-x]"` over a document whose single
element child (id 1) matches. -/
def c2reg : RegResult :=
  registerDirective cardMatches ".card[data-x]" false
    (.node 0 [] [.node 1 [("class", "card"), ("data-x", "1")] []]) 0 emptyStore

/-- After registration the host script rewrites node 1's `class`
attribute to a non-matching value; a delivery happens afterwards. -/
def c2run : World × Store :=
  runSteps c2reg.mgr [.setA 1 "class" "other", .deliver] (c2reg.world, c2reg.store)

/-- A manager for the selector `"[x]"`: matching is presence of the `x`
attribute, and the watch-list is `["x"]`. -/
def c1m : Mgr :=
  { sym := 0, matchesSel := fun a => (a.lookup "x").isSome, watch := ["x"] }

/-- A world with one matching element (id 1) under the document root. -/
def c1w : World :=
  { doc := .node 0 [] [.node 1 [("x", "1")] []], limbo := [], pending := [], subscribed := true }

/-- A matching element root holding an instance of `c1m`, as left by the
initial attach pass when registration is called on an element root. -/
def c3t : NTree :=
  .node 5 [("x", "1")] []

def c3s : Store :=
  attachTo c1m true c3t emptyStore

/-- A two-node world for the fault claim: both nodes are attached but no
longer match (their `x` attribute is gone). -/
def c4w : World :=
  { doc := .node 0 [] [.node 1 [] [], .node 2 [] []], limbo := [], pending := [],
    subscribed := true }

def c4s : Store :=
  { slots := fun n k => if n = 1 ∧ k = 0 then some 10 else if n = 2 ∧ k = 0 then some 11 else none,
    next := 12,
    events := [] }

/-- A batch of two attribute records processed with node 1's `onDetach`
throwing. -/
def c4run : Store × Bool :=
  processRecsE c1m (fun n => n == 1) (fun _ => false) c4w
    [.attributes 1 "x", .attributes 2 "x"] c4s

/-- A nested tree whose root and descendant both match `"[x]"`. -/
def c5t : NTree :=
  .node 1 [("x", "1")] [.node 2 [("x", "1")] [.node 3 [("x", "1")] []]]

def c5s : Store :=
  attachTo c1m true c5t emptyStore

/-- The store after the initial attach pass on the element root `c3t`:
used to exercise the idempotence claims on an attached node. -/
def c6s : Store :=
  attachTo c1m true c3t emptyStore

/-- A container root with one matching element child, shared by the
isolation and container-root claims. -/
def c9t : NTree :=
  .node 0 [] [.node 1 [("x", "1")] []]

def c9r1 : RegResult :=
  registerDirective (fun a => (a.lookup "x").isSome) "[x]" false c9t 0 emptyStore

def c9r2 : RegResult :=
  registerDirective (fun a => (a.lookup "x").isSome) "[x]" false c9t c9r1.nextSym c9r1.store

/-- The matching element child, as an element (for `detachFrom`). -/
def c9elt : NTree :=
  .node 1 [("x", "1")] []

/-- A container (non-element) root whose own attribute list would match
the selector, with one matching element child. -/
def c10t : NTree :=
  .node 0 [("x", "1")] [.node 1 [("x", "1")] []]

/-! ## Helper lemmas -/

theorem addAttr_nodup {acc : List String} (h : acc.Nodup) (n : String) :
    (addAttr acc n).Nodup := by
  unfold addAttr
  split
  · exact h
  · next hn =>
    simpa [List.nodup_append] using ⟨h, hn⟩

theorem extract_nodup_aux :
    ∀ (fuel : Nat) (cs : List Char), cs.length ≤ fuel →
      ∀ acc : List String, acc.Nodup →
        (extractLoop cs acc).Nodup ∧ (extractBracket cs acc).Nodup ∧
        (∀ nm, (extractName cs nm acc).Nodup) := by
  intro fuel
  induction fuel with
  | zero =>
    intro cs hlen acc hacc
    have : cs = [] := List.eq_nil_of_length_eq_zero (Nat.le_zero.mp hlen)
    subst this
    exact ⟨hacc, hacc, fun nm => addAttr_nodup hacc nm⟩
  | succ n ih =>
    intro cs hlen acc hacc
    cases cs with
    | nil => exact ⟨hacc, hacc, fun nm => addAttr_nodup hacc nm⟩
    | cons c cs' =>
      have hlen' : cs'.length ≤ n := by
        simpa [Nat.succ_le_succ_iff] using hlen
      refine ⟨?_, ?_, ?_⟩
      · rw [extractLoop]
        split
        · exact (ih cs' hlen' acc hacc).2.1
        · exact (ih cs' hlen' acc hacc).1
      · rw [extractBracket]
        split
        · exact (ih cs' hlen' acc hacc).2.1
        · split
          · exact (ih cs' hlen' acc hacc).2.2 _
          · split
            · exact (ih cs' hlen' acc hacc).2.1
            · exact (ih cs' hlen' acc hacc).1
      · intro nm
        rw [extractName]
        split
        · exact (ih cs' hlen' acc hacc).2.2 _
        · split
          · exact (ih cs' hlen' (addAttr acc nm) (addAttr_nodup hacc nm)).2.1
          · exact (ih cs' hlen' (addAttr acc nm) (addAttr_nodup hacc nm)).1

theorem extractLoop_no_bracket :
    ∀ (cs : List Char), '[' ∉ cs → ∀ acc, extractLoop cs acc = acc := by
  intro cs
  induction cs with
  | nil => intro _ acc; rfl
  | cons c cs' ih =>
    intro h acc
    rw [extractLoop]
    have hc : ¬ c = '[' := fun hc => h (hc ▸ List.mem_cons_self c cs')
    rw [if_neg hc]
    exact ih (fun hm => h (List.mem_cons_of_mem c hm)) acc

theorem attachP_getSlot (m : Mgr) (n : NodeId) (s : Store) (x : NodeId) (k : Nat) :
    getSlot (attachP m n s).1 x k =
      if x = n ∧ k = m.sym then some ((s.slots n m.sym).getD s.next)
      else getSlot s x k := by
  unfold attachP getSlot
  cases h : s.slots n m.sym with
  | none =>
    simp only []
    split
    · next hx => simp [hx.1, hx.2]
    · rfl
  | some i =>
    simp only []
    split
    · next hx => rw [hx.1, hx.2, h]; rfl
    · rfl

theorem detachP_getSlot (m : Mgr) (n : NodeId) (s : Store) (x : NodeId) (k : Nat) :
    getSlot (detachP m n s) x k =
      if x = n ∧ k = m.sym then none else getSlot s x k := by
  unfold detachP getSlot
  cases h : s.slots n m.sym with
  | none =>
    simp only []
    split
    · next hx => rw [hx.1, hx.2, h]
    · rfl
  | some i =>
    simp only []

theorem attachP_full (m : Mgr) (n : NodeId) (s : Store) (i : Nat)
    (h : getSlot s n m.sym = some i) : attachP m n s = (s, false) := by
  unfold attachP
  unfold getSlot at h
  rw [h]

theorem detachP_empty (m : Mgr) (n : NodeId) (s : Store)
    (h : getSlot s n m.sym = none) : detachP m n s = s := by
  unfold detachP
  unfold getSlot at h
  rw [h]

theorem attachList_nil (m : Mgr) (s : Store) : attachList m [] s = s := rfl

theorem attachList_cons (m : Mgr) (x : NodeId) (xs : List NodeId) (s : Store) :
    attachList m (x :: xs) s = attachList m xs (attachP m x s).1 := rfl

theorem detachList_nil (m : Mgr) (s : Store) : detachList m [] s = s := rfl

theorem detachList_cons (m : Mgr) (x : NodeId) (xs : List NodeId) (s : Store) :
    detachList m (x :: xs) s = detachList m xs (detachP m x s) := rfl

theorem attachList_append (m : Mgr) (l₁ l₂ : List NodeId) (s : Store) :
    attachList m (l₁ ++ l₂) s = attachList m l₂ (attachList m l₁ s) :=
  List.foldl_append _ _ _ _

theorem detachList_append (m : Mgr) (l₁ l₂ : List NodeId) (s : Store) :
    detachList m (l₁ ++ l₂) s = detachList m l₂ (detachList m l₁ s) :=
  List.foldl_append _ _ _ _

theorem attachP_isSome_mono (m : Mgr) (n : NodeId) (s : Store) (x : NodeId) (k : Nat)
    (h : (getSlot s x k).isSome) : (getSlot (attachP m n s).1 x k).isSome := by
  rw [attachP_getSlot]
  split
  · rfl
  · exact h

theorem attachList_isSome_mono (m : Mgr) (l : List NodeId) (s : Store) (x : NodeId) (k : Nat)
    (h : (getSlot s x k).isSome) : (getSlot (attachList m l s) x k).isSome := by
  induction l generalizing s with
  | nil => exact h
  | cons y ys ih =>
    rw [attachList_cons]
    exact ih _ (attachP_isSome_mono m y s x k h)

theorem attachList_getSlot_mem (m : Mgr) (l : List NodeId) (s : Store) (n : NodeId)
    (h : n ∈ l) : (getSlot (attachList m l s) n m.sym).isSome := by
  induction l generalizing s with
  | nil => cases h
  | cons y ys ih =>
    rw [attachList_cons]
    rcases List.mem_cons.mp h with h | h
    · subst h
      refine attachList_isSome_mono m ys _ n m.sym ?_
      rw [attachP_getSlot]
      simp
    · exact ih _ h

theorem attachList_id (m : Mgr) (l : List NodeId) (s : Store)
    (h : ∀ n ∈ l, (getSlot s n m.sym).isSome) : attachList m l s = s := by
  induction l generalizing s with
  | nil => rfl
  | cons y ys ih =>
    rw [attachList_cons]
    obtain ⟨i, hi⟩ := Option.isSome_iff_exists.mp (h y (List.mem_cons_self y ys))
    rw [attachP_full m y s i hi]
    exact ih s (fun n hn => h n (List.mem_cons_of_mem y hn))

theorem attachList_frame (m : Mgr) (l : List NodeId) (s : Store) (x : NodeId) (k : Nat)
    (h : k ≠ m.sym ∨ x ∉ l) : getSlot (attachList m l s) x k = getSlot s x k := by
  induction l generalizing s with
  | nil => rfl
  | cons y ys ih =>
    rw [attachList_cons]
    have hx : ¬ (x = y ∧ k = m.sym) := by
      rcases h with h | h
      · exact fun hc => h hc.2
      · exact fun hc => h (hc.1 ▸ List.mem_cons_self y ys)
    have hrest : k ≠ m.sym ∨ x ∉ ys := by
      rcases h with h | h
      · exact Or.inl h
      · exact Or.inr (fun hc => h (List.mem_cons_of_mem y hc))
    rw [ih _ hrest, attachP_getSlot, if_neg hx]

theorem detachP_none_mono (m : Mgr) (n : NodeId) (s : Store) (x : NodeId) (k : Nat)
    (h : getSlot s x k = none) : getSlot (detachP m n s) x k = none := by
  rw [detachP_getSlot]
  split
  · rfl
  · exact h

theorem detachList_none_mono (m : Mgr) (l : List NodeId) (s : Store) (x : NodeId) (k : Nat)
    (h : getSlot s x k = none) : getSlot (detachList m l s) x k = none := by
  induction l generalizing s with
  | nil => exact h
  | cons y ys ih =>
    rw [detachList_cons]
    exact ih _ (detachP_none_mono m y s x k h)

theorem detachList_getSlot_mem (m : Mgr) (l : List NodeId) (s : Store) (n : NodeId)
    (h : n ∈ l) : getSlot (detachList m l s) n m.sym = none := by
  induction l generalizing s with
  | nil => cases h
  | cons y ys ih =>
    rw [detachList_cons]
    rcases List.mem_cons.mp h with h | h
    · subst h
      refine detachList_none_mono m ys _ n m.sym ?_
      rw [detachP_getSlot]
      simp
    · exact ih _ h

theorem detachList_id (m : Mgr) (l : List NodeId) (s : Store)
    (h : ∀ n ∈ l, getSlot s n m.sym = none) : detachList m l s = s := by
  induction l generalizing s with
  | nil => rfl
  | cons y ys ih =>
    rw [detachList_cons, detachP_empty m y s (h y (List.mem_cons_self y ys))]
    exact ih s (fun n hn => h n (List.mem_cons_of_mem y hn))

theorem detachList_frame (m : Mgr) (l : List NodeId) (s : Store) (x : NodeId) (k : Nat)
    (h : k ≠ m.sym ∨ x ∉ l) : getSlot (detachList m l s) x k = getSlot s x k := by
  induction l generalizing s with
  | nil => rfl
  | cons y ys ih =>
    rw [detachList_cons]
    have hx : ¬ (x = y ∧ k = m.sym) := by
      rcases h with h | h
      · exact fun hc => h hc.2
      · exact fun hc => h (hc.1 ▸ List.mem_cons_self y ys)
    have hrest : k ≠ m.sym ∨ x ∉ ys := by
      rcases h with h | h
      · exact Or.inl h
      · exact Or.inr (fun hc => h (List.mem_cons_of_mem y hc))
    rw [ih _ hrest, detachP_getSlot, if_neg hx]

theorem detachP_events (m : Mgr) (n : NodeId) (s : Store) :
    ∃ δ : List Event, (detachP m n s).events = s.events ++ δ ∧
      ∀ e ∈ δ, ∃ i, e = Event.detach m.sym n i := by
  unfold detachP
  cases h : s.slots n m.sym with
  | none => exact ⟨[], by simp⟩
  | some i => exact ⟨[.detach m.sym n i], by simp⟩

theorem detachList_events (m : Mgr) (l : List NodeId) (s : Store) :
    ∃ δ : List Event, (detachList m l s).events = s.events ++ δ ∧
      ∀ e ∈ δ, ∃ n i, n ∈ l ∧ e = Event.detach m.sym n i := by
  induction l generalizing s with
  | nil => exact ⟨[], by simp [detachList_nil]⟩
  | cons y ys ih =>
    rw [detachList_cons]
    obtain ⟨δ₁, h₁, hm₁⟩ := detachP_events m y s
    obtain ⟨δ₂, h₂, hm₂⟩ := ih (detachP m y s)
    refine ⟨δ₁ ++ δ₂, by rw [h₂, h₁, List.append_assoc], ?_⟩
    intro e he
    rcases List.mem_append.mp he with he | he
    · obtain ⟨i, hi⟩ := hm₁ e he
      exact ⟨y, i, List.mem_cons_self y ys, hi⟩
    · obtain ⟨n, i, hn, hi⟩ := hm₂ e he
      exact ⟨n, i, List.mem_cons_of_mem y hn, hi⟩

theorem detachList_events_mono (m : Mgr) (l : List NodeId) (s : Store) (e : Event)
    (h : e ∈ s.events) : e ∈ (detachList m l s).events := by
  obtain ⟨δ, hδ, _⟩ := detachList_events m l s
  rw [hδ]
  exact List.mem_append_left δ h

theorem detachList_emits (m : Mgr) (l : List NodeId) (s : Store) (n : NodeId) (i : Nat)
    (hm : n ∈ l) (hs : getSlot s n m.sym = some i) :
    Event.detach m.sym n i ∈ (detachList m l s).events := by
  induction l generalizing s with
  | nil => cases hm
  | cons y ys ih =>
    rw [detachList_cons]
    by_cases hy : n = y
    · subst hy
      have hev : Event.detach m.sym n i ∈ (detachP m n s).events := by
        unfold detachP
        unfold getSlot at hs
        rw [hs]
        simp
      exact detachList_events_mono m ys _ _ hev
    · rcases List.mem_cons.mp hm with h | h
      · exact absurd h hy
      · refine ih _ h ?_
        rw [detachP_getSlot, if_neg (fun hc => hy hc.1)]
        exact hs

theorem update_absent (m : Mgr) (n : NodeId) (rec : MRec) (s : Store)
    (h : getSlot s n m.sym = none) :
    update m n rec s =
      { slots := fun x k => if x = n ∧ k = m.sym then some s.next else s.slots x k,
        next := s.next + 1,
        events := s.events ++ [.construct m.sym n s.next] } := by
  unfold update attachP
  unfold getSlot at h
  rw [h]
  rfl

theorem update_present (m : Mgr) (n : NodeId) (rec : MRec) (s : Store) (i : Nat)
    (h : getSlot s n m.sym = some i) :
    update m n rec s = { s with events := s.events ++ [.change m.sym n i rec] } := by
  unfold update
  rw [attachP_full m n s i h]
  simp only [Bool.false_eq_true, if_false, h]

theorem detachP_present (m : Mgr) (n : NodeId) (s : Store) (i : Nat)
    (h : getSlot s n m.sym = some i) :
    detachP m n s =
      { slots := fun x k => if x = n ∧ k = m.sym then none else s.slots x k,
        next := s.next,
        events := s.events ++ [.detach m.sym n i] } := by
  unfold detachP
  unfold getSlot at h
  rw [h]

theorem update_getSlot_off (m : Mgr) (x : NodeId) (rec : MRec) (s : Store)
    (n : NodeId) (k : Nat) (h : ¬ (n = x ∧ k = m.sym)) :
    getSlot (update m x rec s) n k = getSlot s n k := by
  have hA : getSlot (attachP m x s).1 n k = getSlot s n k := by
    rw [attachP_getSlot, if_neg h]
  unfold update
  by_cases hr : (attachP m x s).2
  · simp only [hr, if_true]
    exact hA
  · simp only [hr, Bool.false_eq_true, if_false]
    cases hg : getSlot (attachP m x s).1 x m.sym with
    | none => simpa [hg] using hA
    | some i => simpa [hg, getSlot] using hA

theorem processRec_attributes (m : Mgr) (w : World) (el : NodeId) (t : NTree)
    (k : String) (s : Store) (hres : resolve w el = some t) :
    processRec m w s (.attributes el k) =
      if m.matchesSel t.rootAttrs then update m el (.attributes el k) s
      else detachP m el s := by
  simp only [processRec, hres]

theorem detachPE_no_fault (m : Mgr) (n : NodeId) (s : Store) :
    detachPE m (fun _ => false) n s = (detachP m n s, false) := by
  unfold detachPE detachP
  cases s.slots n m.sym <;> rfl

theorem updateE_no_fault (m : Mgr) (n : NodeId) (rec : MRec) (s : Store) :
    updateE m (fun _ => false) n rec s = (update m n rec s, false) := by
  unfold updateE update
  by_cases h : (attachP m n s).2
  · simp [h]
  · cases hg : getSlot (attachP m n s).1 n m.sym <;> simp [h, hg]

theorem detachListE_no_fault (m : Mgr) (l : List NodeId) (s : Store) :
    detachListE m (fun _ => false) l s = (detachList m l s, false) := by
  induction l generalizing s with
  | nil => rfl
  | cons y ys ih =>
    rw [detachListE, detachPE_no_fault]
    simpa [detachList_cons] using ih (detachP m y s)

theorem detachFromE_no_fault (m : Mgr) (t : NTree) (s : Store) :
    detachFromE m (fun _ => false) t s = (detachFrom m t s, false) := by
  unfold detachFromE detachFrom
  exact detachListE_no_fault m _ s

theorem detachRemovedE_no_fault (m : Mgr) (w : World) (l : List NodeId) (s : Store) :
    detachRemovedE m (fun _ => false) w l s =
      (l.foldl (fun s n =>
        match resolve w n with
        | some t => detachFrom m t s
        | none => s) s, false) := by
  induction l generalizing s with
  | nil => rfl
  | cons y ys ih =>
    cases hres : resolve w y with
    | none => simpa [detachRemovedE, hres] using ih s
    | some t => simpa [detachRemovedE, hres, detachFromE_no_fault] using ih (detachFrom m t s)

theorem processRecE_no_fault (m : Mgr) (w : World) (r : MRec) (s : Store) :
    processRecE m (fun _ => false) (fun _ => false) w s r = (processRec m w s r, false) := by
  cases r with
  | childList added removed =>
    rw [processRecE, processRec]
    exact detachRemovedE_no_fault m w removed _
  | attributes n k =>
    rw [processRecE, processRec]
    cases resolve w n with
    | none => rfl
    | some t =>
      by_cases h : m.matchesSel t.rootAttrs
      · simp only [h, if_true]
        exact updateE_no_fault m n _ s
      · simp only [h, if_false]
        exact detachPE_no_fault m n s

/-! ## Claim theorems -/

/-- C1: for an attribute-change descriptor whose target is still in the
tree: (match, unattached) constructs an instance and stores it under the
manager's key; (match, attached) invokes `onChange(node, descriptor)` on
the stored instance with no new construction; (no match, attached)
invokes `onDetach` and erases the stored instance; (no match, unattached)
leaves the store untouched. -/
theorem c1_attribute_descriptor_cases (m : Mgr) (w : World) (el : NodeId) (t : NTree)
    (k : String) (s : Store) (hin : lookupTree w.doc el = some t) :
    (m.matchesSel t.rootAttrs = true → getSlot s el m.sym = none →
      (getSlot (processRec m w s (.attributes el k)) el m.sym = some s.next ∧
       (∀ x j, ¬(x = el ∧ j = m.sym) →
         getSlot (processRec m w s (.attributes el k)) x j = getSlot s x j) ∧
       (processRec m w s (.attributes el k)).next = s.next + 1 ∧
       (processRec m w s (.attributes el k)).events =
         s.events ++ [.construct m.sym el s.next])) ∧
    (∀ i, m.matchesSel t.rootAttrs = true → getSlot s el m.sym = some i →
      processRec m w s (.attributes el k) =
        { s with events := s.events ++ [.change m.sym el i (.attributes el k)] }) ∧
    (∀ i, m.matchesSel t.rootAttrs = false → getSlot s el m.sym = some i →
      (getSlot (processRec m w s (.attributes el k)) el m.sym = none ∧
       (∀ x j, ¬(x = el ∧ j = m.sym) →
         getSlot (processRec m w s (.attributes el k)) x j = getSlot s x j) ∧
       (processRec m w s (.attributes el k)).events =
         s.events ++ [.detach m.sym el i])) ∧
    (m.matchesSel t.rootAttrs = false → getSlot s el m.sym = none →
      processRec m w s (.attributes el k) = s) := by
  have hres : resolve w el = some t := by
    unfold resolve
    rw [hin]
  rw [processRec_attributes m w el t k s hres]
  refine ⟨?_, ?_, ?_, ?_⟩
  · intro hm hs
    rw [if_pos hm, update_absent m el _ s hs]
    refine ⟨by simp [getSlot], ?_, rfl, rfl⟩
    intro x j hxj
    simp [getSlot, if_neg hxj]
  · intro i hm hs
    rw [if_pos hm, update_present m el _ s i hs]
  · intro i hm hs
    rw [hm]
    simp only [Bool.false_eq_true, if_false]
    rw [detachP_present m el s i hs]
    refine ⟨by simp [getSlot], ?_, rfl⟩
    intro x j hxj
    simp [getSlot, if_neg hxj]
  · intro hm hs
    rw [hm]
    simp only [Bool.false_eq_true, if_false]
    exact detachP_empty m el s hs

/-- Witness for C1: the construct-if-absent case discharged on a concrete
one-element document. -/
theorem c1_attribute_descriptor_cases_witness :
    getSlot (processRec c1m c1w emptyStore (.attributes 1 "x")) 1 c1m.sym =
      some emptyStore.next :=
  ((c1_attribute_descriptor_cases c1m c1w 1 (.node 1 [("x", "1")] []) "x" emptyStore
    rfl).1 (by decide) (by decide)).1

/-- C2: the claimed reachable-state invariant fails on the code.  The
selector `".card[data-x]"` yields the watch-list `["data-x"]`, so
`observe`'s `attributeFilter` suppresses the mutation record for the
`class` rewrite; the manager is never woken, node 1 stops matching while
its directive instance (id 0) stays stored, and the instance outlives its
node's match window.  The state is reachable by the registration's
initial attach pass followed by one attribute write and one (empty)
delivery, with no disconnect. -/
theorem c2_filtered_attribute_change_leaks_instance :
    c2reg.mgr.watch = ["data-x"] ∧
    getSlot c2run.2 1 c2reg.mgr.sym = some 0 ∧
    lookupAttrs c2run.1.doc 1 = some [("class", "other"), ("data-x", "1")] ∧
    cardMatches [("class", "other"), ("data-x", "1")] = false ∧
    ¬ storeInv c2reg.mgr c2run.1 c2run.2 := by
  refine ⟨by decide, by decide, by decide, by decide, ?_⟩
  intro h
  obtain ⟨a, ha, hm⟩ := h 1 0 (by decide)
  have hb : lookupAttrs c2run.1.doc 1 = some [("class", "other"), ("data-x", "1")] := by decide
  rw [hb] at ha
  cases ha
  exact absurd hm (by decide)

/-- C3 counterexample: `disconnect` never tears down the root element
itself.  Registration on the matching element root `c3t` (id 5) stores
instance 0 on it; after `disconnect` with that root, the instance is
still stored and the event log shows the construction but no `onDetach`
invocation — contradicting the claim that every node in the subtree
rooted at the passed node, including the root node itself, is detached
and erased. -/
theorem c3_root_instance_abandoned :
    getSlot c3s 5 c1m.sym = some 0 ∧
    c1m.matchesSel c3t.rootAttrs = true ∧
    ¬ (getSlot (disconnectStore c1m c3t c3s) 5 c1m.sym = none) ∧
    (disconnectStore c1m c3t c3s).events = [Event.construct c1m.sym 5 0] := by
  decide

/-- C3 (amended): after `disconnect(root)`, every currently-matching
proper descendant of the root that held a stored instance has had
`onDetach` invoked and its instance erased; the root element's own slot
is untouched. -/
theorem c3_disconnect_detaches_matching_descendants (m : Mgr) (t : NTree) (s : Store) :
    (∀ n ∈ querySelectorAll m t, getSlot (disconnectStore m t s) n m.sym = none) ∧
    (∀ n i, n ∈ querySelectorAll m t → getSlot s n m.sym = some i →
      Event.detach m.sym n i ∈ (disconnectStore m t s).events) ∧
    (t.rootId ∉ querySelectorAll m t →
      getSlot (disconnectStore m t s) t.rootId m.sym = getSlot s t.rootId m.sym) := by
  unfold disconnectStore
  refine ⟨?_, ?_, ?_⟩
  · intro n hn
    exact detachList_getSlot_mem m _ s n hn
  · intro n i hn hs
    exact detachList_emits m _ s n i hn hs
  · intro h
    exact detachList_frame m _ s _ m.sym (Or.inr h)

/-- Witness for the amended C3: the matching descendant of the two-node
registration root is erased by `disconnect`. -/
theorem c3_disconnect_detaches_matching_descendants_witness :
    getSlot (disconnectStore c9r1.mgr c9t c9r1.store) 1 c9r1.mgr.sym = none :=
  (c3_disconnect_detaches_matching_descendants c9r1.mgr c9t c9r1.store).1 1 (by decide)

/-- C4 counterexample: with node 1 attached (instance 10), node 2
attached (instance 11), neither matching any longer, and node 1's
`onDetach` throwing, the batch of two attribute records aborts: the
exception unwinds, node 1's slot is NOT erased although its `onDetach`
ran, and the second descriptor is never processed (node 2 keeps its
instance, no second `onDetach` event). -/
theorem c4_throwing_callback_aborts_batch :
    c4run.2 = true ∧
    ¬ (getSlot c4run.1 1 c1m.sym = none) ∧
    getSlot c4run.1 1 c1m.sym = some 10 ∧
    getSlot c4run.1 2 c1m.sym = some 11 ∧
    c4run.1.events = [Event.detach c1m.sym 1 10] := by
  decide

/-- C4 (amended): the manager completes its bookkeeping for every node
and processes every descriptor of the batch exactly when the user
callbacks return normally — with never-throwing callbacks the
exception-aware semantics runs the whole batch and agrees with the plain
reducer, and no exception escapes. -/
theorem c4_no_fault_processing_completes (m : Mgr) (w : World) (recs : List MRec) (s : Store) :
    processRecsE m (fun _ => false) (fun _ => false) w recs s =
      (processRecs m w recs s, false) := by
  induction recs generalizing s with
  | nil => rfl
  | cons r rs ih =>
    rw [processRecsE, processRecE_no_fault]
    simpa [processRecs] using ih (processRec m w s r)

/-- C5: the teardown pass `detachFrom` emits all of its `onDetach`
invocations for matching descendants (the subtree-query result) before
any `onDetach` invocation for the root itself: its event-log extension
splits into a first part whose events all concern subtree-query nodes and
a second part whose events all concern the root, and every attached
matching descendant's `onDetach` event lands in the first part. -/
theorem c5_descendants_detached_before_root (m : Mgr) (t : NTree) (s : Store) :
    ∃ δ₁ δ₂ : List Event,
      (detachFrom m t s).events = s.events ++ δ₁ ++ δ₂ ∧
      (∀ e ∈ δ₁, ∃ n i, n ∈ querySelectorAll m t ∧ e = Event.detach m.sym n i) ∧
      (∀ e ∈ δ₂, ∃ i, e = Event.detach m.sym t.rootId i) ∧
      (∀ n i, n ∈ querySelectorAll m t → getSlot s n m.sym = some i →
        Event.detach m.sym n i ∈ s.events ++ δ₁) := by
  unfold detachFrom
  rw [detachList_append]
  obtain ⟨δ₁, h₁, hm₁⟩ := detachList_events m (querySelectorAll m t) s
  obtain ⟨δ₂, h₂, hm₂⟩ :=
    detachList_events m (if m.matchesSel t.rootAttrs then [t.rootId] else [])
      (detachList m (querySelectorAll m t) s)
  refine ⟨δ₁, δ₂, ?_, hm₁, ?_, ?_⟩
  · rw [h₂, h₁]
  · intro e he
    obtain ⟨n, i, hn, hi⟩ := hm₂ e he
    have hroot : n = t.rootId := by
      by_cases hms : m.matchesSel t.rootAttrs
      · rw [if_pos hms] at hn
        simpa using hn
      · rw [if_neg hms] at hn
        cases hn
    exact ⟨i, hroot ▸ hi⟩
  · intro n i hn hs
    rw [← h₁]
    exact detachList_emits m _ s n i hn hs

/-- Witness for C5: the order decomposition instantiated on a nested
matching tree with its attached store. -/
theorem c5_descendants_detached_before_root_witness :
    ∃ δ₁ δ₂ : List Event,
      (detachFrom c1m c5t c5s).events = c5s.events ++ δ₁ ++ δ₂ ∧
      (∀ e ∈ δ₁, ∃ n i, n ∈ querySelectorAll c1m c5t ∧ e = Event.detach c1m.sym n i) ∧
      (∀ e ∈ δ₂, ∃ i, e = Event.detach c1m.sym c5t.rootId i) ∧
      (∀ n i, n ∈ querySelectorAll c1m c5t → getSlot c5s n c1m.sym = some i →
        Event.detach c1m.sym n i ∈ c5s.events ++ δ₁) :=
  c5_descendants_detached_before_root c1m c5t c5s

/-- C6: the attach pass is idempotent — running `attachTo` again on the
same root is the identity on the whole store (slots, instance counter and
event log alike, so no new instance and no extra constructor invocation),
and `#attach` on an already-attached node reports `false`
("already present") and leaves the store unchanged. -/
theorem c6_attach_idempotent (m : Mgr) (ie : Bool) (t : NTree) (s : Store) :
    attachTo m ie t (attachTo m ie t s) = attachTo m ie t s ∧
    (∀ n i, getSlot s n m.sym = some i → attachP m n s = (s, false)) := by
  constructor
  · unfold attachTo
    apply attachList_id
    intro n hn
    exact attachList_getSlot_mem m _ s n hn
  · intro n i h
    exact attachP_full m n s i h

/-- Witness for C6: a redundant `#attach` on the attached root of `c3t`
reports "already present" and changes nothing. -/
theorem c6_attach_idempotent_witness :
    attachP c1m 5 c6s = (c6s, false) :=
  (c6_attach_idempotent c1m true c3t c6s).2 5 0 (by decide)

/-- C7: the teardown pass is idempotent — running `detachFrom` again on
the same root is the identity on the whole store (so over the two runs
each `onDetach` is invoked at most once), and `#detach` on a node with no
stored instance is a no-op. -/
theorem c7_detach_idempotent (m : Mgr) (t : NTree) (s : Store) :
    detachFrom m t (detachFrom m t s) = detachFrom m t s ∧
    (∀ n, getSlot s n m.sym = none → detachP m n s = s) := by
  constructor
  · unfold detachFrom
    apply detachList_id
    intro n hn
    exact detachList_getSlot_mem m _ s n hn
  · exact fun n h => detachP_empty m n s h

/-- Witness for C7: `#detach` of an unattached node on the empty store is
a no-op. -/
theorem c7_detach_idempotent_witness :
    detachP c1m 5 emptyStore = emptyStore :=
  (c7_detach_idempotent c1m c3t emptyStore).2 5 (by decide)

/-- C8: for every selector string, `extractAttributesFromSelector` returns
the duplicate-free list of attribute names occurring in bracketed attribute
predicates, ordered by first occurrence, ignoring predicate operators and
values; a selector with no bracket predicates yields the empty list; the
two documented examples evaluate as stated; the function is a total pure
function (it is a Lean `def`, so purity, determinism and totality are
inherent). -/
theorem c8_extract_attributes :
    extractAttributesFromSelector "[data-id][role=btn] > span" = ["data-id", "role"] ∧
    extractAttributesFromSelector "div.card" = [] ∧
    (∀ s : String, (extractAttributesFromSelector s).Nodup) ∧
    (∀ s : String, '[' ∉ s.data → extractAttributesFromSelector s = []) := by
  refine ⟨by decide, by decide, ?_, ?_⟩
  · intro s
    exact (extract_nodup_aux s.data.length s.data le_rfl [] List.nodup_nil).1
  · intro s hs
    exact extractLoop_no_bracket s.data hs []

/-- Witness for C8: the no-bracket clause discharged at `"p.note"`. -/
theorem c8_extract_attributes_witness :
    '[' ∉ "p.note".data ∧ extractAttributesFromSelector "p.note" = [] :=
  ⟨by decide, c8_extract_attributes.2.2.2 "p.note" (by decide)⟩

/-- C9: storage keys of successively constructed managers are always
distinct (even for the identical matching predicate and selector); every
store operation of one manager leaves another manager's stored instance
on every node unchanged whenever their keys differ; and concretely, two
managers registered with the identical selector over the same root each
hold their own instance on the shared matching node, and detaching one
manager's instance leaves the other's in place. -/
theorem c9_manager_isolation :
    (∀ (f g : Attrs → Bool) (sel sel2 : String) (c : Nat),
      (newManager f sel c).1.sym ≠ (newManager g sel2 ((newManager f sel c).2)).1.sym) ∧
    (∀ (m₁ m₂ : Mgr), m₂.sym ≠ m₁.sym →
      ∀ (n x : NodeId) (s : Store) (rec : MRec) (ie : Bool) (t : NTree),
        getDir m₂ n (attachP m₁ x s).1 = getDir m₂ n s ∧
        getDir m₂ n (detachP m₁ x s) = getDir m₂ n s ∧
        getDir m₂ n (update m₁ x rec s) = getDir m₂ n s ∧
        getDir m₂ n (attachTo m₁ ie t s) = getDir m₂ n s ∧
        getDir m₂ n (detachFrom m₁ t s) = getDir m₂ n s ∧
        getDir m₂ n (disconnectStore m₁ t s) = getDir m₂ n s) ∧
    (getDir c9r1.mgr 1 c9r2.store = some 0 ∧
     getDir c9r2.mgr 1 c9r2.store = some 1 ∧
     getDir c9r2.mgr 1 (detachFrom c9r2.mgr c9elt c9r2.store) = none ∧
     getDir c9r1.mgr 1 (detachFrom c9r2.mgr c9elt c9r2.store) = some 0) := by
  refine ⟨?_, ?_, ?_⟩
  · intro f g sel sel2 c
    simp only [newManager]
    omega
  · intro m₁ m₂ hsym n x s rec ie t
    have hneg : ¬ (n = x ∧ m₂.sym = m₁.sym) := fun hc => hsym hc.2
    refine ⟨?_, ?_, ?_, ?_, ?_, ?_⟩
    · unfold getDir
      rw [attachP_getSlot, if_neg hneg]
    · unfold getDir
      rw [detachP_getSlot, if_neg hneg]
    · unfold getDir
      exact update_getSlot_off m₁ x rec s n m₂.sym hneg
    · unfold getDir attachTo
      exact attachList_frame m₁ _ s n m₂.sym (Or.inl hsym)
    · unfold getDir detachFrom
      exact detachList_frame m₁ _ s n m₂.sym (Or.inl hsym)
    · unfold getDir disconnectStore
      exact detachList_frame m₁ _ s n m₂.sym (Or.inl hsym)
  · exact ⟨by decide, by decide, by decide, by decide⟩

/-- Witness for C9: the frame clause discharged for the two concretely
registered managers. -/
theorem c9_manager_isolation_witness :
    getDir c9r1.mgr 1 (detachP c9r2.mgr 1 c9r2.store) = getDir c9r1.mgr 1 c9r2.store :=
  (c9_manager_isolation.2.1 c9r2.mgr c9r1.mgr (by decide) 1 1 c9r2.store
    (.childList [] []) true c9t).2.1

/-- C10: for a non-element `ParentNode` root (document or fragment),
`attachTo` — and the attach pass of `registerDirective` — considers only
the element descendants returned by the subtree query: the run equals the
plain `#attach` loop over `querySelectorAll`, the root is never tested
against the selector (its own matching attributes are ignored, as the
concrete instances show), and the root's own slot is untouched.  Totality
of the Lean functions gives completion without error. -/
theorem c10_container_root_safe (m : Mgr) (t : NTree) (s : Store)
    (f : Attrs → Bool) (sel : String) (c : Nat) :
    attachTo m false t s = attachList m (querySelectorAll m t) s ∧
    (t.rootId ∉ querySelectorAll m t →
      getSlot (attachTo m false t s) t.rootId m.sym = getSlot s t.rootId m.sym) ∧
    (registerDirective f sel false t c s).store =
      attachList (registerDirective f sel false t c s).mgr
        (querySelectorAll (registerDirective f sel false t c s).mgr t) s := by
  refine ⟨?_, ?_, ?_⟩
  · simp [attachTo]
  · intro h
    have h1 : attachTo m false t s = attachList m (querySelectorAll m t) s := by
      simp [attachTo]
    rw [h1]
    exact attachList_frame m _ s _ m.sym (Or.inr h)
  · simp [registerDirective, newManager, attachTo]

/-- Witness for C10: the container root of `c10t` matches the selector
itself, yet keeps an empty slot after the attach pass. -/
theorem c10_container_root_safe_witness :
    getSlot (attachTo c1m false c10t emptyStore) c10t.rootId c1m.sym =
      getSlot emptyStore c10t.rootId c1m.sym :=
  (c10_container_root_safe c1m c10t emptyStore (fun a => (a.lookup "x").isSome)
    "[x]" 0).2.1 (by decide)

end Directive
